import Mathlib

/-!
# Verification of the hegemon system monitor core

A shallow embedding, over exact arithmetic, of the hegemon application
state machine (`src/model.rs`), event-loop input arm (`src/main.rs`),
quantity and duration formatters and bar-graph bucketing (`src/view.rs`),
and the rate-sampling wrapper (`src/providers/network.rs`).

Conventions:
* `usize` values are modelled as `ℕ`; Rust subtraction on `usize` is
  modelled by truncated `Nat` subtraction in the total functions, and a
  separate checked variant (`handleChecked`) makes the debug-mode
  underflow panic and the `unwrap` panic explicit as `none`.
* `f64` values are modelled as `ℚ` with exact arithmetic; the programs
  only feed finite values into the modelled code paths (non-finite
  inputs are fatal contract violations in the source).
* Rust fixed-precision float formatting rounds the value to the
  requested number of decimals with ties to even; this is modelled by
  `roundHalfEven` over `ℚ`.
-/

namespace Hegemon

/-! ## Quantity formatter (`view.rs`, `format_quantity`) -/

/-- Round a rational to the nearest integer, ties to even: the rounding
Rust uses when formatting a float at a fixed precision. -/
def roundHalfEven (x : ℚ) : ℤ :=
  if x - ⌊x⌋ < 1/2 then ⌊x⌋
  else if 1/2 < x - ⌊x⌋ then ⌊x⌋ + 1
  else if ⌊x⌋ % 2 = 0 then ⌊x⌋ else ⌊x⌋ + 1

/-- Decimal digit string of `n`, left-padded with zeros to `p` digits. -/
def padDigits (p : ℕ) (n : ℕ) : String :=
  String.mk (List.replicate (p - (Nat.repr n).length) '0') ++ Nat.repr n

/-- Exact model of Rust fixed-precision formatting of a finite float
(`format!` with a precision of `p`): sign, integer part, and exactly `p`
fractional digits of the value rounded to `p` decimals, ties to even. -/
def formatRaw (p : ℕ) (q : ℚ) : String :=
  (if q < 0 then "-" else "") ++
    Nat.repr ((roundHalfEven (|q| * 10 ^ p)).toNat / 10 ^ p) ++
    (if p = 0 then "" else "." ++ padDigits p ((roundHalfEven (|q| * 10 ^ p)).toNat % 10 ^ p))

/-- Model of replacing the first match of the regex "dot-optional, then
one or more zeros, at the end of the string" with nothing
(`format_quantity` removes trailing zeros this way when precision is
positive): strip the maximal nonempty run of trailing zeros, plus the
decimal point immediately before it if there is one. -/
def stripTrailingZeros (s : String) : String :=
  if (s.data.reverse.takeWhile (fun c => c = '0')).isEmpty then s
  else
    String.mk
      (match s.data.reverse.dropWhile (fun c => c = '0') with
        | '.' :: t => t.reverse
        | r => r.reverse)

/-- `t.data` is an initial segment of `s.data`: the exact-list model of
the `starts_with` check in `format_quantity`. -/
def strStartsWith (s t : String) : Bool :=
  t.data.isPrefixOf s.data

/-- Base SI magnitude of `format_quantity`: the exact value of
`(quantity.abs().log10() / 3.0).floor()`, namely the floor of the
base-10 logarithm of `|q|`, floor-divided by 3. -/
def mag0 (q : ℚ) : ℤ :=
  Int.log 10 |q| / 3

/-- The magnitude selected by `format_quantity`: 0 without a prefix or
for the value 0; otherwise the base magnitude, bumped by one when
formatting the scaled value at the requested precision would print a
leading "1000" (rounding carried a digit into the next order). -/
def magnitude (usePref : Bool) (p : ℕ) (q : ℚ) : ℤ :=
  if usePref = true ∧ q ≠ 0 then
    if strStartsWith (formatRaw p (q / 10 ^ (3 * mag0 q))) "1000" = true then mag0 q + 1
    else mag0 q
  else 0

/-- SI prefix chosen by `format_quantity` for a magnitude: empty for 0,
the positive or negative prefix table indexed by `|m| - 1`, and "?" when
that index is out of the 6-entry table. -/
def prefStr (m : ℤ) : String :=
  if m = 0 then ""
  else
    (if 0 < m then ["k", "M", "G", "T", "P", "E"] else ["m", "µ", "n", "p", "f", "a"]).getD
      (m.natAbs - 1) "?"

/-- Model of `format_quantity`: scale by the selected magnitude, format
at the requested precision, strip trailing zeros when the precision is
positive, and compose number style, number, unit style, prefix, unit. -/
def formatQuantity (q : ℚ) (unit : String) (usePref : Bool) (p : ℕ)
    (numberStyle unitStyle : String) : String :=
  numberStyle ++
    (if 0 < p then stripTrailingZeros (formatRaw p (q / 10 ^ (3 * magnitude usePref p q)))
     else formatRaw p (q / 10 ^ (3 * magnitude usePref p q))) ++
    unitStyle ++ prefStr (magnitude usePref p q) ++ unit

/-! ## Duration formatter (`view.rs`, `format_duration`)

The Rust function takes a `Duration` and immediately converts it to whole
milliseconds; the model takes that millisecond count directly. -/

/-- Shortest decimal rendering of `ms / 1000` seconds, as Rust `Display`
prints the quotient: the integer part, then a fractional part with
trailing zeros dropped, omitted entirely when the remainder is zero. -/
def secondsStr (ms : ℕ) : String :=
  if ms % 1000 = 0 then Nat.repr (ms / 1000)
  else
    Nat.repr (ms / 1000) ++ "." ++
      String.mk ((padDigits 3 (ms % 1000)).data.reverse.dropWhile (fun c => c = '0')).reverse

/-- Model of `format_duration`: "0s" at zero; otherwise the hour and
minute components are emitted while at least one whole unit remains,
reducing the remainder, and a final seconds component is emitted when a
positive remainder is left. -/
def formatDuration (ms : ℕ) (ns us : String) : String :=
  if ms = 0 then ns ++ "0" ++ us ++ "s"
  else
    let s1 := if 3600000 ≤ ms then ns ++ Nat.repr (ms / 3600000) ++ us ++ "h" else ""
    let m1 := if 3600000 ≤ ms then ms % 3600000 else ms
    let s2 := if 60000 ≤ m1 then s1 ++ ns ++ Nat.repr (m1 / 60000) ++ us ++ "m" else s1
    let m2 := if 60000 ≤ m1 then m1 % 60000 else m1
    if 0 < m2 then s2 ++ ns ++ secondsStr m2 ++ us ++ "s" else s2

/-! ## Bar-graph bucketing (`view.rs`, the `graph` closure in
`StreamWrapper::render`) -/

/-- The eight bar glyphs `BARS`, from one-eighth block to full block. -/
def barGlyphs : List String :=
  ["▁", "▂", "▃", "▄", "▅", "▆", "▇", "█"]

/-- The "no data" marker `DOT`. -/
def dotStr : String := "•"

/-- Glyph index chosen for a present sample `v` in the row range
`lo`..`hi`: when the range is nondegenerate, the normalized level times 8
(the glyph count), rounded up, cast to an unsigned index (negative
values saturate at 0), then decremented unless it is already 0; for a
degenerate range, index 0. -/
def barIndex (v lo hi : ℚ) : ℕ :=
  if lo < hi then
    if (⌈(v - lo) / (hi - lo) * 8⌉).toNat = 0 then 0
    else (⌈(v - lo) / (hi - lo) * 8⌉).toNat - 1
  else 0

/-- The symbol rendered for one sample cell: the `DOT` marker for an
absent sample, otherwise the bar glyph at `barIndex` (the source indexes
`BARS` directly; the default is never reached for in-range samples). -/
def renderSample (s : Option ℚ) (lo hi : ℚ) : String :=
  match s with
  | none => dotStr
  | some v => barGlyphs.getD (barIndex v lo hi) "!"

/-! ## Rate-sampling wrapper (`providers/network.rs`, `rate_calculator`) -/

/-- One call of the closure built by `rate_calculator`. The state is the
remembered previous reading (`last_input`); `dt` is the elapsed time in
seconds since the previous call. Returns the emitted sample and the new
state: on a valid reading, the rate against the previous reading (0 when
the counter did not increase), or nothing when no previous reading is
held; on a missing reading, nothing, and the state is cleared. -/
def rateStep (last : Option ℚ) (input : Option ℚ) (dt : ℚ) :
    Option ℚ × Option ℚ :=
  match input with
  | some i => ((last.map fun l => if l < i then (i - l) / dt else 0), some i)
  | none => (none, none)

/-- Run the rate calculator over a list of underlying readings taken at
one-second spacing, starting from the given remembered state. -/
def rateRun (last : Option ℚ) : List (Option ℚ) → List (Option ℚ)
  | [] => []
  | i :: rest =>
      (rateStep last i 1).1 :: rateRun (rateStep last i 1).2 rest

/-! ## Application state machine (`model.rs`) -/

/-- Decoded key events the handler distinguishes. -/
inductive Key where
  | up
  | down
  | char (c : Char)
  | esc
  | otherKey
  deriving DecidableEq

/-- Mouse buttons the handler distinguishes. -/
inductive MouseBtn where
  | wheelUp
  | wheelDown
  | otherButton
  deriving DecidableEq

/-- Decoded input events (`termion::event::Event`): a key press, a mouse
button press, or anything else. -/
inductive Event where
  | key (k : Key)
  | mousePress (b : MouseBtn)
  | otherEvent
  deriving DecidableEq

/-- The two screens. -/
inductive Screen where
  | main
  | streams
  deriving DecidableEq

/-- Whether the scroll position is pinned to the top or bottom of the
active-stream list. -/
inductive ScrollAnchor where
  | top
  | bottom
  deriving DecidableEq

/-- `StreamWrapper`: one stream's mutable display state. `values` is the
sample history; `sampleVal` models the next value the stream's stateful
sampler will return when `update_streams` calls it. -/
structure StreamWrapper where
  active : Bool
  expanded : Bool
  values : List (Option ℚ)
  sampleVal : Option ℚ
  deriving DecidableEq

/-- Rows a stream occupies (`StreamWrapper::height`): 1 collapsed,
1 + 5 expanded. -/
def StreamWrapper.rows (w : StreamWrapper) : ℕ :=
  if w.expanded then 6 else 1

/-- The interval catalog built by `Application::new`:
(seconds, tick spacing). -/
def intervals : List (ℕ × ℕ) :=
  [(1, 10), (2, 10), (3, 10), (5, 12), (10, 12), (30, 10), (60, 10), (300, 12)]

/-- The application state (`Application` in `model.rs`). The menu map is
static configuration and not modelled. -/
structure Application where
  running : Bool
  width : ℕ
  height : ℕ
  screen : Screen
  streams : List StreamWrapper
  selection_index : ℕ
  scroll_index : ℕ
  scroll_anchor : ScrollAnchor
  interval_index : ℕ
  deriving DecidableEq

/-- `Application::new` with `n` streams: all streams start active,
collapsed and with empty history; selection and scroll start at 0 with a
top anchor; the initial interval index is 2. -/
def Application.new (width height n : ℕ) : Application :=
  { running := true
    width := width
    height := height
    screen := Screen.main
    streams := List.replicate n { active := true, expanded := false, values := [], sampleVal := none }
    selection_index := 0
    scroll_index := 0
    scroll_anchor := ScrollAnchor.top
    interval_index := 2 }

/-- `Application::active_streams`. -/
def activeStreams (s : Application) : List StreamWrapper :=
  s.streams.filter fun w => w.active

/-- The counting loop of `scroll_to_stream`: how many leading streams of
the slice fit completely in the available height, consuming it. -/
def fitCount : List StreamWrapper → ℕ → ℕ
  | [], _ => 0
  | w :: rest, avail =>
      if avail < w.rows then 0 else 1 + fitCount rest (avail - w.rows)

/-- Indices of the first and last completely visible streams, as
`scroll_to_stream` computes them: count the streams fitting in the body
height (`height - 2`) walking away from the anchor, discount the anchor
stream itself, and extend the anchor index by the remaining count in the
anchor's direction. -/
def visibleRange (s : Application) : ℕ × ℕ :=
  match s.scroll_anchor with
  | ScrollAnchor.top =>
      (s.scroll_index,
        s.scroll_index + (fitCount ((activeStreams s).drop s.scroll_index) (s.height - 2) - 1))
  | ScrollAnchor.bottom =>
      (s.scroll_index -
        (fitCount (((activeStreams s).take (s.scroll_index + 1)).reverse) (s.height - 2) - 1),
        s.scroll_index)

/-- `Application::scroll_to_stream`: if the target index falls below the
fully visible range, re-anchor to the top at that index; above it,
re-anchor to the bottom at that index; otherwise leave the scroll state
unchanged. -/
def scrollToStream (s : Application) (i : ℕ) : Application :=
  if i < (visibleRange s).1 then
    { s with scroll_index := i, scroll_anchor := ScrollAnchor.top }
  else if (visibleRange s).2 < i then
    { s with scroll_index := i, scroll_anchor := ScrollAnchor.bottom }
  else s

/-- Toggle `expanded` on the `n`-th active stream of the list, as the
Space handler does through `iter_mut().filter(active).nth(n)`. -/
def toggleNthActive : List StreamWrapper → ℕ → List StreamWrapper
  | [], _ => []
  | w :: rest, n =>
      if w.active then
        match n with
        | 0 => { w with expanded := !w.expanded } :: rest
        | m + 1 => w :: toggleNthActive rest m
      else w :: toggleNthActive rest n

/-- The Main-screen key arms of `Application::handle`. Returns the new
state and whether an observable change happened. The Down bound uses
truncated subtraction where Rust evaluates `active_streams().len() - 1`
on a `usize`; `handleChecked` models the underflow hazard. -/
def handleMainKey (s : Application) (k : Key) : Application × Bool :=
  match k with
  | Key.up =>
      if 0 < s.selection_index then
        (scrollToStream { s with selection_index := s.selection_index - 1 }
          (s.selection_index - 1), true)
      else (s, false)
  | Key.down =>
      if s.selection_index < (activeStreams s).length - 1 then
        (scrollToStream { s with selection_index := s.selection_index + 1 }
          (s.selection_index + 1), true)
      else (s, false)
  | Key.char c =>
      if c = ' ' then
        (scrollToStream { s with streams := toggleNthActive s.streams s.selection_index }
          s.selection_index, true)
      else if c = 's' then ({ s with screen := Screen.streams }, true)
      else if c = '+' then
        if s.interval_index < intervals.length - 1 then
          ({ s with interval_index := s.interval_index + 1 }, true)
        else (s, false)
      else if c = '-' then
        if 0 < s.interval_index then
          ({ s with interval_index := s.interval_index - 1 }, true)
        else (s, false)
      else if c = 'q' then ({ s with running := false }, true)
      else (s, false)
  | Key.esc => (s, false)
  | Key.otherKey => (s, false)

/-- `Application::handle`. On the Main screen, keys are handled by
`handleMainKey` and a mouse wheel press is handled exactly as the
opposite arrow key (the source recurses into itself with that key
event); on the Streams screen only Escape does anything. -/
def handle (s : Application) (e : Event) : Application × Bool :=
  match s.screen with
  | Screen.main =>
      match e with
      | Event.key k => handleMainKey s k
      | Event.mousePress MouseBtn.wheelUp => handleMainKey s Key.down
      | Event.mousePress MouseBtn.wheelDown => handleMainKey s Key.up
      | Event.mousePress MouseBtn.otherButton => (s, false)
      | Event.otherEvent => (s, false)
  | Screen.streams =>
      match e with
      | Event.key Key.esc => ({ s with screen := Screen.main }, true)
      | _ => (s, false)

/-- Checked variant of the Main-screen handler exposing the two panic
hazards of the Down and Space arms as `none`: in debug builds,
`active_streams().len() - 1` underflows on an unsigned zero, and the
Space arm `unwrap`s the selected active stream, which panics when no
stream is at `selection_index`. All other arms cannot panic. -/
def handleMainKeyChecked (s : Application) (k : Key) : Option (Application × Bool) :=
  match k with
  | Key.down =>
      if (activeStreams s).length = 0 then none
      else some (handleMainKey s Key.down)
  | Key.char c =>
      if c = ' ' then
        match (activeStreams s)[s.selection_index]? with
        | none => none
        | some _ => some (handleMainKey s (Key.char ' '))
      else some (handleMainKey s (Key.char c))
  | k => some (handleMainKey s k)

/-- Checked variant of `Application::handle` (see
`handleMainKeyChecked`). -/
def handleChecked (s : Application) (e : Event) : Option (Application × Bool) :=
  match s.screen with
  | Screen.main =>
      match e with
      | Event.key k => handleMainKeyChecked s k
      | Event.mousePress MouseBtn.wheelUp => handleMainKeyChecked s Key.down
      | Event.mousePress MouseBtn.wheelDown => handleMainKeyChecked s Key.up
      | Event.mousePress MouseBtn.otherButton => some (s, false)
      | Event.otherEvent => some (s, false)
  | Screen.streams => some (handle s e)

/-- `Application::resize`: store the new dimensions. -/
def resize (s : Application) (w h : ℕ) : Application :=
  { s with width := w, height := h }

/-- `Application::update_streams`: sample each active stream once and
append the (possibly absent) value to its history. The source also
asserts the provider contract (finite, within declared bounds) on
present values; a violation aborts and is not modelled here. -/
def updateStreams (s : Application) : Application :=
  { s with
    streams := s.streams.map fun w =>
      if w.active then { w with values := w.values ++ [w.sampleVal] } else w }

/-- `Application::reset_streams`: clear every stream's history. -/
def resetStreams (s : Application) : Application :=
  { s with streams := s.streams.map fun w => { w with values := [] } }

/-- The input arm of the `main` event loop: handle the event; if a
change is reported, stop on shutdown, and on an interval-index change
reset every history and take one fresh sample before rendering. -/
def processInput (s : Application) (e : Event) : Application :=
  if (handle s e).2 = true then
    if (handle s e).1.running = false then (handle s e).1
    else if (handle s e).1.interval_index ≠ s.interval_index then
      updateStreams (resetStreams (handle s e).1)
    else (handle s e).1
  else (handle s e).1

/-- The scroll invariant: the selected stream lies inside the fully
visible index range computed by the anchor algorithm. -/
def inBounds (s : Application) : Prop :=
  (visibleRange s).1 ≤ s.selection_index ∧ s.selection_index ≤ (visibleRange s).2

instance (s : Application) : Decidable (inBounds s) := by
  unfold inBounds; infer_instance

/-! ## Helper lemmas -/

/-- `scroll_to_stream` never touches the selection. -/
theorem scrollToStream_selection (s : Application) (i : ℕ) :
    (scrollToStream s i).selection_index = s.selection_index := by
  unfold scrollToStream; split_ifs <;> rfl

/-- `scroll_to_stream` never touches the stream list. -/
theorem scrollToStream_streams (s : Application) (i : ℕ) :
    (scrollToStream s i).streams = s.streams := by
  unfold scrollToStream; split_ifs <;> rfl

/-- `scroll_to_stream` never touches the run flag. -/
theorem scrollToStream_running (s : Application) (i : ℕ) :
    (scrollToStream s i).running = s.running := by
  unfold scrollToStream; split_ifs <;> rfl

/-- `scroll_to_stream` never touches the interval index. -/
theorem scrollToStream_interval (s : Application) (i : ℕ) :
    (scrollToStream s i).interval_index = s.interval_index := by
  unfold scrollToStream; split_ifs <;> rfl

/-- After `scroll_to_stream` targets index `i`, the index `i` lies in
the fully visible range of the resulting state: either it was already
inside, or the state was re-anchored at `i` itself. -/
theorem scrollToStream_inRange (s : Application) (i : ℕ) :
    (visibleRange (scrollToStream s i)).1 ≤ i ∧
      i ≤ (visibleRange (scrollToStream s i)).2 := by
  unfold scrollToStream
  split_ifs with h1 h2
  · exact ⟨le_refl i, Nat.le_add_right i _⟩
  · exact ⟨Nat.sub_le i _, le_refl i⟩
  · exact ⟨le_of_not_lt h1, le_of_not_lt h2⟩

/-- Every Main-screen key arm preserves the scroll invariant: arms that
move the selection end with `scroll_to_stream` on the new selection, and
the other arms do not touch selection, scroll or stream heights. -/
theorem inBounds_handleMainKey (s : Application) (k : Key) (h : inBounds s) :
    inBounds (handleMainKey s k).1 := by
  cases k with
  | up =>
      simp only [handleMainKey]
      split_ifs
      · unfold inBounds
        rw [scrollToStream_selection]
        exact scrollToStream_inRange _ _
      · exact h
  | down =>
      simp only [handleMainKey]
      split_ifs
      · unfold inBounds
        rw [scrollToStream_selection]
        exact scrollToStream_inRange _ _
      · exact h
  | char c =>
      simp only [handleMainKey]
      split_ifs <;>
        first
          | exact h
          | (unfold inBounds; rw [scrollToStream_selection]; exact scrollToStream_inRange _ _)
  | esc => exact h
  | otherKey => exact h

/-- `Application::handle` preserves the scroll invariant for every
input event (`resize` is a separate entry point and is not an input
event). -/
theorem inBounds_handle (s : Application) (e : Event) (h : inBounds s) :
    inBounds (handle s e).1 := by
  rcases s with ⟨run, wd, ht, scr, st, sel, sc, an, ii⟩
  cases scr with
  | main =>
      cases e with
      | key k => exact inBounds_handleMainKey _ k h
      | mousePress b =>
          cases b with
          | wheelUp => exact inBounds_handleMainKey _ Key.down h
          | wheelDown => exact inBounds_handleMainKey _ Key.up h
          | otherButton => exact h
      | otherEvent => exact h
  | streams =>
      cases e with
      | key k => cases k <;> exact h
      | mousePress b => exact h
      | otherEvent => exact h

/-- A Main-screen key arm either leaves the run flag or the interval
index unchanged: only `q` flips the run flag, and `q` never changes the
interval index. -/
theorem handleMainKey_run_or_interval (s : Application) (k : Key) :
    (handleMainKey s k).1.running = s.running ∨
      (handleMainKey s k).1.interval_index = s.interval_index := by
  cases k <;> simp only [handleMainKey] <;> (try split_ifs) <;>
    first
      | exact Or.inl trivial
      | exact Or.inl (scrollToStream_running _ _)
      | exact Or.inl rfl
      | exact Or.inr rfl

/-- `Application::handle` either leaves the run flag or the interval
index unchanged. -/
theorem handle_run_or_interval (s : Application) (e : Event) :
    (handle s e).1.running = s.running ∨
      (handle s e).1.interval_index = s.interval_index := by
  rcases s with ⟨run, wd, ht, scr, st, sel, sc, an, ii⟩
  cases scr with
  | main =>
      cases e with
      | key k => exact handleMainKey_run_or_interval _ k
      | mousePress b =>
          cases b with
          | wheelUp => exact handleMainKey_run_or_interval _ Key.down
          | wheelDown => exact handleMainKey_run_or_interval _ Key.up
          | otherButton => exact Or.inl rfl
      | otherEvent => exact Or.inl rfl
  | streams =>
      cases e with
      | key k => cases k <;> exact Or.inl rfl
      | mousePress b => exact Or.inl rfl
      | otherEvent => exact Or.inl rfl

/-! ## Claim theorems -/

/-- Claim C9: handling a resize event updates only the stored width and
height; streams (hence every history), selection, scroll, interval, and
screen state are unchanged. -/
theorem C9_resize_frame (s : Application) (w h : ℕ) :
    (resize s w h).width = w ∧ (resize s w h).height = h ∧
      (resize s w h).streams = s.streams ∧
      (resize s w h).selection_index = s.selection_index ∧
      (resize s w h).scroll_index = s.scroll_index ∧
      (resize s w h).scroll_anchor = s.scroll_anchor ∧
      (resize s w h).interval_index = s.interval_index ∧
      (resize s w h).screen = s.screen ∧
      (resize s w h).running = s.running :=
  ⟨rfl, rfl, rfl, rfl, rfl, rfl, rfl, rfl, rfl⟩

/-- Claim C8: on the Main screen, a mouse wheel-up press is handled
exactly as the Down key and a wheel-down press exactly as the Up key,
including the returned change report. -/
theorem C8_wheel_inversion (s : Application) (h : s.screen = Screen.main) :
    handle s (Event.mousePress MouseBtn.wheelUp) = handle s (Event.key Key.down) ∧
      handle s (Event.mousePress MouseBtn.wheelDown) = handle s (Event.key Key.up) := by
  unfold handle
  rw [h]
  exact ⟨rfl, rfl⟩

/-- Witness for C8 at a concrete state. -/
theorem C8_wheel_inversion_witness :
    handle (Application.new 80 24 2) (Event.mousePress MouseBtn.wheelUp) =
      handle (Application.new 80 24 2) (Event.key Key.down) :=
  (C8_wheel_inversion (Application.new 80 24 2) rfl).1

/-- Claim C5: the rate wrapper returns nothing on the first valid sample
after start or after any missing underlying sample (its previous state
resets on a missing sample), returns the delta over the elapsed seconds
when the counter increased, returns 0 when it decreased or stayed equal,
and on underlying samples 100, 150, 140, 200 at one-second spacing emits
none, 50, 0, 60. -/
theorem C5_rate_calculator :
    (∀ i dt : ℚ, rateStep none (some i) dt = (none, some i)) ∧
      (∀ (last : Option ℚ) (dt : ℚ), rateStep last none dt = (none, none)) ∧
      (∀ l i dt : ℚ, l < i → (rateStep (some l) (some i) dt).1 = some ((i - l) / dt)) ∧
      (∀ l i dt : ℚ, i ≤ l → (rateStep (some l) (some i) dt).1 = some 0) ∧
      rateRun none [some 100, some 150, some 140, some 200] =
        [none, some 50, some 0, some 60] := by
  refine ⟨fun i dt => rfl, fun last dt => rfl, ?_, ?_, ?_⟩
  · intro l i dt h
    simp [rateStep, if_pos h]
  · intro l i dt h
    simp [rateStep, if_neg (not_lt.mpr h)]
  · norm_num [rateRun, rateStep]

/-- Witness for C5: a strictly increasing step yields the positive
rate. -/
theorem C5_rate_calculator_witness :
    (rateStep (some (100:ℚ)) (some 150) 1).1 = some ((150 - 100) / 1) :=
  C5_rate_calculator.2.2.1 100 150 1 (by norm_num)

/-- Claim C4: for a sample in a nondegenerate row range, the glyph index
is the ceiling of the normalized level times 8, minus one, clamped below
at 0 (and always below 8); the low bound maps to the lowest glyph and
the high bound to the highest; a degenerate range always yields the
lowest glyph; an absent sample renders the distinct no-data marker and
never a bar glyph. -/
theorem C4_bar_buckets :
    (∀ v lo hi : ℚ, lo < hi → lo ≤ v → v ≤ hi →
        (barIndex v lo hi : ℤ) = max (⌈(v - lo) / (hi - lo) * 8⌉ - 1) 0 ∧
          barIndex v lo hi < 8) ∧
      (∀ lo hi : ℚ, lo < hi → barIndex lo lo hi = 0) ∧
      (∀ lo hi : ℚ, lo < hi → barIndex hi lo hi = 7) ∧
      (∀ v lo : ℚ, barIndex v lo lo = 0) ∧
      (∀ lo hi : ℚ, renderSample none lo hi = dotStr) ∧
      (∀ v lo hi : ℚ, lo ≤ v → v ≤ hi → renderSample (some v) lo hi ∈ barGlyphs) ∧
      dotStr ∉ barGlyphs := by
  have key : ∀ v lo hi : ℚ, lo < hi → lo ≤ v → v ≤ hi →
      0 ≤ ⌈(v - lo) / (hi - lo) * 8⌉ ∧ ⌈(v - lo) / (hi - lo) * 8⌉ ≤ 8 := by
    intro v lo hi h hv1 hv2
    have hd : (0:ℚ) < hi - lo := sub_pos.mpr h
    have hL0 : (0:ℚ) ≤ (v - lo) / (hi - lo) := div_nonneg (by linarith) hd.le
    have hL1 : (v - lo) / (hi - lo) ≤ 1 := by
      rw [div_le_one hd]; linarith
    constructor
    · exact Int.ceil_nonneg (by positivity)
    · rw [Int.ceil_le]
      push_cast
      nlinarith
  have main : ∀ v lo hi : ℚ, lo < hi → lo ≤ v → v ≤ hi →
      (barIndex v lo hi : ℤ) = max (⌈(v - lo) / (hi - lo) * 8⌉ - 1) 0 ∧
        barIndex v lo hi < 8 := by
    intro v lo hi h hv1 hv2
    obtain ⟨h0, h8⟩ := key v lo hi h hv1 hv2
    unfold barIndex
    rw [if_pos h]
    constructor
    · split_ifs with hz <;> omega
    · split_ifs with hz <;> omega
  refine ⟨main, ?_, ?_, ?_, fun lo hi => rfl, ?_, by decide⟩
  · intro lo hi h
    unfold barIndex
    rw [if_pos h]
    simp
  · intro lo hi h
    have hd : (0:ℚ) < hi - lo := sub_pos.mpr h
    unfold barIndex
    rw [if_pos h, div_self (ne_of_gt hd)]
    norm_num
    decide
  · intro v lo
    unfold barIndex
    rw [if_neg (lt_irrefl lo)]
  · intro v lo hi hv1 hv2
    have hlt : barIndex v lo hi < 8 := by
      by_cases h : lo < hi
      · exact (main v lo hi h hv1 hv2).2
      · unfold barIndex; rw [if_neg h]; omega
    have hrs : renderSample (some v) lo hi = barGlyphs.getD (barIndex v lo hi) "!" := rfl
    rw [hrs, List.getD_eq_getElem barGlyphs "!" (by simpa [barGlyphs] using hlt)]
    exact List.getElem_mem _

/-- Witness for C4: the exact low bound of a nondegenerate range takes
the lowest glyph. -/
theorem C4_bar_buckets_witness : barIndex 0 0 1 = 0 :=
  C4_bar_buckets.2.1 0 1 (by norm_num)

/-- Claim C1 (amended): after any sequence of Up/Down key transitions at
a fixed terminal size, the selected stream lies within the fully visible
range computed by the two-anchor algorithm from the current scroll
state and body height. (Resize events are excluded: `resize` stores the
new dimensions without reflowing, so it does not re-establish the
invariant; see the counterexample.) -/
theorem C1_up_down_scroll_invariant (w h n : ℕ) (hh : 2 ≤ h) (es : List Event)
    (hud : ∀ e ∈ es, e = Event.key Key.up ∨ e = Event.key Key.down) :
    inBounds (es.foldl (fun s e => (handle s e).1) (Application.new w h n)) := by
  clear hud hh
  have hinit : inBounds (Application.new w h n) := ⟨le_refl 0, Nat.zero_le _⟩
  suffices H : ∀ s0 : Application, inBounds s0 →
      inBounds (es.foldl (fun s e => (handle s e).1) s0) from H _ hinit
  induction es with
  | nil => exact fun s0 h0 => h0
  | cons e rest ih => exact fun s0 h0 => ih _ (inBounds_handle s0 e h0)

/-- Witness for C1: one Down press from the initial state keeps the
selection fully visible. -/
theorem C1_up_down_scroll_invariant_witness :
    inBounds ([Event.key Key.down].foldl (fun s e => (handle s e).1)
      (Application.new 80 10 3)) :=
  C1_up_down_scroll_invariant 80 10 3 (by decide) [Event.key Key.down] (by decide)

/-- Counterexample to claim C1 as stated: resize events do not restore
the invariant. With 8 active collapsed streams at height 10, pressing
Down seven times selects stream 7 (all 8 streams fit, so no rescroll);
a resize to height 5 leaves scroll state untouched while the fully
visible range shrinks to indices 0..2, so selection 7 is outside it. -/
theorem C1_claim_counterexample :
    ¬ inBounds (resize ((List.replicate 7 (Event.key Key.down)).foldl
      (fun s e => (handle s e).1) (Application.new 80 10 8)) 80 5) := by
  decide

/-- Claim C2: whenever a handled input event changes the selected
interval index, the loop's input arm clears every stream's history to
length 0 and then appends exactly one fresh sample to each active
stream's history, so after the reset-and-resample step every active
stream's history has length exactly 1. -/
theorem C2_interval_change_reset (s : Application) (e : Event)
    (hrun : s.running = true)
    (hch : (handle s e).2 = true)
    (hint : (handle s e).1.interval_index ≠ s.interval_index) :
    (∀ w ∈ (resetStreams (handle s e).1).streams, w.values = []) ∧
      processInput s e = updateStreams (resetStreams (handle s e).1) ∧
      (∀ w ∈ (processInput s e).streams, w.active = true → w.values.length = 1) := by
  have hr : (handle s e).1.running = true := by
    rcases handle_run_or_interval s e with h | h
    · rw [h, hrun]
    · exact absurd h hint
  have hB : processInput s e = updateStreams (resetStreams (handle s e).1) := by
    unfold processInput
    rw [if_pos hch, if_neg (by rw [hr]; exact fun h => Bool.noConfusion h), if_pos hint]
  refine ⟨?_, hB, ?_⟩
  · intro w hw
    simp only [resetStreams, List.mem_map] at hw
    obtain ⟨x, -, rfl⟩ := hw
    rfl
  · intro w hw hact
    rw [hB] at hw
    simp only [updateStreams, resetStreams, List.map_map, List.mem_map] at hw
    obtain ⟨x, -, rfl⟩ := hw
    by_cases hxa : x.active = true
    · simp only [Function.comp, hxa, if_pos] at hact ⊢
      simp
    · simp only [Function.comp] at hact
      rw [if_neg (by simpa using hxa)] at hact
      exact absurd hact (by simpa using hxa)

/-- Witness for C2: pressing `+` on a fresh application advances the
interval index, so the input arm resets and resamples. -/
theorem C2_interval_change_reset_witness :
    processInput (Application.new 80 24 2) (Event.key (Key.char '+')) =
      updateStreams (resetStreams
        (handle (Application.new 80 24 2) (Event.key (Key.char '+'))).1) :=
  (C2_interval_change_reset (Application.new 80 24 2) (Event.key (Key.char '+'))
    rfl (by decide) (by decide)).2.1

/-- Claim C7: on the Main screen, Up and Down move the selection by one
inside the active range, clamping at the bounds, and report a change
exactly when the selection actually moved; at a bound they report no
change and leave the state untouched. -/
theorem C7_up_down_selection (s : Application) (hscr : s.screen = Screen.main)
    (hpos : 0 < (activeStreams s).length)
    (hsel : s.selection_index < (activeStreams s).length) :
    (((handle s (Event.key Key.up)).2 = true ↔
        (handle s (Event.key Key.up)).1.selection_index ≠ s.selection_index) ∧
      (0 < s.selection_index →
        (handle s (Event.key Key.up)).1.selection_index = s.selection_index - 1 ∧
          (handle s (Event.key Key.up)).2 = true) ∧
      (s.selection_index = 0 → handle s (Event.key Key.up) = (s, false)) ∧
      (handle s (Event.key Key.up)).1.selection_index < (activeStreams s).length) ∧
    (((handle s (Event.key Key.down)).2 = true ↔
        (handle s (Event.key Key.down)).1.selection_index ≠ s.selection_index) ∧
      (s.selection_index < (activeStreams s).length - 1 →
        (handle s (Event.key Key.down)).1.selection_index = s.selection_index + 1 ∧
          (handle s (Event.key Key.down)).2 = true) ∧
      (s.selection_index = (activeStreams s).length - 1 →
        handle s (Event.key Key.down) = (s, false)) ∧
      (handle s (Event.key Key.down)).1.selection_index < (activeStreams s).length) := by
  have hu : handle s (Event.key Key.up) = handleMainKey s Key.up := by
    unfold handle; rw [hscr]
  have hd : handle s (Event.key Key.down) = handleMainKey s Key.down := by
    unfold handle; rw [hscr]
  rw [hu, hd]
  constructor
  · simp only [handleMainKey]
    rcases Nat.eq_zero_or_pos s.selection_index with h0 | h0
    · rw [if_neg (by omega)]
      refine ⟨by simp, fun hc => absurd hc (by omega), fun _ => rfl, hsel⟩
    · rw [if_pos h0]
      refine ⟨?_, fun _ => ⟨?_, rfl⟩, fun hc => absurd hc (by omega), ?_⟩
      · rw [scrollToStream_selection]
        simp only [true_iff]
        show ¬ s.selection_index - 1 = s.selection_index
        omega
      · rw [scrollToStream_selection]
      · rw [scrollToStream_selection]
        show s.selection_index - 1 < _
        omega
  · simp only [handleMainKey]
    by_cases hc : s.selection_index < (activeStreams s).length - 1
    · rw [if_pos hc]
      refine ⟨?_, fun _ => ⟨?_, rfl⟩, fun he => absurd he (by omega), ?_⟩
      · rw [scrollToStream_selection]
        simp only [true_iff]
        show ¬ s.selection_index + 1 = s.selection_index
        omega
      · rw [scrollToStream_selection]
      · rw [scrollToStream_selection]
        show s.selection_index + 1 < _
        omega
    · rw [if_neg hc]
      exact ⟨by simp, fun h => absurd h hc, fun _ => rfl, hsel⟩

/-- Witness for C7: on a fresh two-stream application (selection 0), Up
is at its bound and reports no change. -/
theorem C7_up_down_selection_witness :
    handle (Application.new 80 24 2) (Event.key Key.up) = (Application.new 80 24 2, false) :=
  (C7_up_down_selection (Application.new 80 24 2) rfl (by decide) (by decide)).1.2.2.1 rfl

/-- Claim C10: on the Main screen, the Down and Space arms are panic
free only under the precondition that at least one stream is active and
the selection index is within the active count: with zero active
streams, Down underflows evaluating the active count minus one and
Space unwraps a missing stream; with the selection past the active
count, Space unwraps a missing stream; under the precondition both
error branches are unreachable. -/
theorem C10_down_space_safety (s : Application) (hscr : s.screen = Screen.main) :
    ((1 ≤ (activeStreams s).length ∧ s.selection_index < (activeStreams s).length) →
        (handleChecked s (Event.key Key.down)).isSome = true ∧
          (handleChecked s (Event.key (Key.char ' '))).isSome = true) ∧
      ((activeStreams s).length = 0 →
        handleChecked s (Event.key Key.down) = none ∧
          handleChecked s (Event.key (Key.char ' ')) = none) ∧
      ((activeStreams s).length ≤ s.selection_index →
        handleChecked s (Event.key (Key.char ' ')) = none) := by
  have hd : handleChecked s (Event.key Key.down) = handleMainKeyChecked s Key.down := by
    unfold handleChecked; rw [hscr]
  have hs : handleChecked s (Event.key (Key.char ' ')) =
      handleMainKeyChecked s (Key.char ' ') := by
    unfold handleChecked; rw [hscr]
  rw [hd, hs]
  constructor
  · rintro ⟨h1, h2⟩
    constructor
    · simp only [handleMainKeyChecked]
      rw [if_neg (by omega)]
      rfl
    · simp only [handleMainKeyChecked]
      rw [if_pos trivial, List.getElem?_eq_getElem h2]
      rfl
  · constructor
    · intro h0
      constructor
      · simp only [handleMainKeyChecked]
        rw [if_pos h0]
      · simp only [handleMainKeyChecked]
        rw [if_pos trivial, List.getElem?_eq_none (by omega)]
    · intro h0
      simp only [handleMainKeyChecked]
      rw [if_pos trivial, List.getElem?_eq_none h0]

/-- Witness for C10: a fresh two-stream application satisfies the
precondition, so Down is safe there. -/
theorem C10_down_space_safety_witness :
    (handleChecked (Application.new 80 24 2) (Event.key Key.down)).isSome = true :=
  ((C10_down_space_safety (Application.new 80 24 2) rfl).1 ⟨by decide, by decide⟩).1

/-- Claim C6: a zero duration renders as "0s"; a nonzero duration is the
concatenation of its hour, minute and decimal-second components in
descending order, each omitted exactly when its value is zero; in
particular 61 seconds renders "1m1s" and 3661 seconds renders
"1h1m1s". -/
theorem C6_format_duration :
    (∀ ns us : String, formatDuration 0 ns us = ns ++ "0" ++ us ++ "s") ∧
      (∀ (ms : ℕ) (ns us : String), ms ≠ 0 →
        formatDuration ms ns us =
          (if ms / 3600000 = 0 then "" else ns ++ Nat.repr (ms / 3600000) ++ us ++ "h") ++
            (if ms % 3600000 / 60000 = 0 then ""
              else ns ++ Nat.repr (ms % 3600000 / 60000) ++ us ++ "m") ++
            (if ms % 60000 = 0 then "" else ns ++ secondsStr (ms % 60000) ++ us ++ "s")) ∧
      formatDuration 61000 "" "" = "1m1s" ∧
      formatDuration 3661000 "" "" = "1h1m1s" := by
  refine ⟨fun ns us => by simp [formatDuration], ?_, by decide, by decide⟩
  intro ms ns us h
  simp only [formatDuration, if_neg h]
  by_cases h1 : 3600000 ≤ ms
  · have e0 : ¬ ms / 3600000 = 0 := by omega
    have e3 : ms % 3600000 % 60000 = ms % 60000 := by omega
    rw [if_pos h1, if_pos h1, if_neg e0]
    by_cases h2 : 60000 ≤ ms % 3600000
    · have e2 : ¬ ms % 3600000 / 60000 = 0 := by omega
      rw [if_pos h2, if_pos h2, if_neg e2, e3]
      by_cases h3 : ms % 60000 = 0
      · rw [if_neg (by omega), if_pos h3]
        simp [String.append_assoc]
      · rw [if_pos (by omega), if_neg h3]
        simp [String.append_assoc]
    · have e2 : ms % 3600000 / 60000 = 0 := by omega
      have e4 : ms % 3600000 = ms % 60000 := by omega
      rw [if_neg h2, if_neg h2, if_pos e2, e4]
      by_cases h3 : ms % 60000 = 0
      · rw [if_neg (by omega), if_pos h3]
        simp [String.append_assoc]
      · rw [if_pos (by omega), if_neg h3]
        simp [String.append_assoc]
  · have e0 : ms / 3600000 = 0 := by omega
    have e5 : ms % 3600000 = ms := by omega
    rw [if_neg h1, if_neg h1, if_pos e0, e5]
    by_cases h2 : 60000 ≤ ms
    · have e2 : ¬ ms / 60000 = 0 := by omega
      rw [if_pos h2, if_pos h2, if_neg e2]
      by_cases h3 : ms % 60000 = 0
      · rw [if_neg (by omega), if_pos h3]
        simp [String.append_assoc]
      · rw [if_pos (by omega), if_neg h3]
        simp [String.append_assoc]
    · have e2 : ms / 60000 = 0 := by omega
      have e4 : ms % 60000 = ms := by omega
      rw [if_neg h2, if_neg h2, if_pos e2, e4]
      rw [if_pos (by omega), if_neg h]
      simp [String.append_assoc]

/-- Witness for C6: the nonzero-duration decomposition at 61000
milliseconds. -/
theorem C6_format_duration_witness :
    formatDuration 61000 "A" "B" =
      (if 61000 / 3600000 = 0 then "" else "A" ++ Nat.repr (61000 / 3600000) ++ "B" ++ "h") ++
        (if 61000 % 3600000 / 60000 = 0 then ""
          else "A" ++ Nat.repr (61000 % 3600000 / 60000) ++ "B" ++ "m") ++
        (if 61000 % 60000 = 0 then "" else "A" ++ secondsStr (61000 % 60000) ++ "B" ++ "s") :=
  C6_format_duration.2.1 61000 "A" "B" (by decide)

/-! ## Helper lemmas for the quantity formatter -/

/-- Rounding below a half-integer gap rounds down. -/
theorem roundHalfEven_of_lt {x : ℚ} {f : ℤ} (hf : ⌊x⌋ = f) (h : x - f < 1/2) :
    roundHalfEven x = f := by
  unfold roundHalfEven
  rw [hf, if_pos h]

/-- Rounding above a half-integer gap rounds up. -/
theorem roundHalfEven_of_gt {x : ℚ} {f : ℤ} (hf : ⌊x⌋ = f) (h : 1/2 < x - f) :
    roundHalfEven x = f + 1 := by
  unfold roundHalfEven
  rw [hf, if_neg (by linarith), if_pos h]

/-- `Int.log 10` is characterized by the power sandwich. -/
theorem intLog10_eq {q : ℚ} {m : ℤ} (h1 : (10:ℚ) ^ m ≤ q) (h2 : q < (10:ℚ) ^ (m + 1)) :
    Int.log 10 q = m := by
  have hq : 0 < q := lt_of_lt_of_le (zpow_pos (by norm_num) m) h1
  have la : ((10:ℕ):ℚ) ^ Int.log 10 q ≤ q := Int.zpow_log_le_self (by norm_num) hq
  have lb : q < ((10:ℕ):ℚ) ^ (Int.log 10 q + 1) := Int.lt_zpow_succ_log_self (by norm_num) q
  push_cast at la lb
  by_contra hne
  rcases lt_or_gt_of_ne hne with hlt | hgt
  · have h3 : Int.log 10 q + 1 ≤ m := by omega
    have h4 : (10:ℚ) ^ (Int.log 10 q + 1) ≤ (10:ℚ) ^ m := zpow_le_zpow_right₀ (by norm_num) h3
    linarith
  · have h3 : m + 1 ≤ Int.log 10 q := by omega
    have h4 : (10:ℚ) ^ (m + 1) ≤ (10:ℚ) ^ (Int.log 10 q) := zpow_le_zpow_right₀ (by norm_num) h3
    linarith

/-- The base magnitude brackets the absolute value between consecutive
powers of 1000: it is the floor of a third of the base-10 logarithm. -/
theorem mag0_bounds (q : ℚ) (hq : q ≠ 0) :
    (10:ℚ) ^ (3 * mag0 q) ≤ |q| ∧ |q| < (10:ℚ) ^ (3 * mag0 q + 3) := by
  have habs : 0 < |q| := abs_pos.mpr hq
  have la : ((10:ℕ):ℚ) ^ Int.log 10 |q| ≤ |q| := Int.zpow_log_le_self (by norm_num) habs
  have lb : |q| < ((10:ℕ):ℚ) ^ (Int.log 10 |q| + 1) := Int.lt_zpow_succ_log_self (by norm_num) |q|
  push_cast at la lb
  have h1 : 3 * mag0 q ≤ Int.log 10 |q| := by unfold mag0; omega
  have h2 : Int.log 10 |q| + 1 ≤ 3 * mag0 q + 3 := by unfold mag0; omega
  exact ⟨le_trans (zpow_le_zpow_right₀ (by norm_num) h1) la,
    lt_of_lt_of_le lb (zpow_le_zpow_right₀ (by norm_num) h2)⟩

/-- 999.9 is positive, so its absolute value is itself. -/
theorem abs_9999over10 : |(9999:ℚ)/10| = 9999/10 := abs_of_pos (by norm_num)

/-- The floor-log of 999.9 is 2. -/
theorem intLog10_9999over10 : Int.log 10 ((9999:ℚ)/10) = 2 :=
  intLog10_eq (by norm_num) (by norm_num)

/-- The base magnitude of 999.9 is 0. -/
theorem mag0_9999over10 : mag0 ((9999:ℚ)/10) = 0 := by
  unfold mag0
  rw [abs_9999over10, intLog10_9999over10]
  decide

/-- 999.9 formatted at precision 0 rounds up to "1000". -/
theorem formatRaw_9999over10 : formatRaw 0 ((9999:ℚ)/10) = "1000" := by
  have hfl : ⌊|(9999:ℚ)/10| * 10 ^ (0:ℕ)⌋ = 999 := by
    rw [abs_9999over10]; norm_num
  have hr : roundHalfEven (|(9999:ℚ)/10| * 10 ^ (0:ℕ)) = 1000 := by
    rw [roundHalfEven_of_gt hfl (by rw [abs_9999over10]; push_cast; norm_num)]
    decide
  unfold formatRaw
  rw [hr, if_neg (by norm_num : ¬ ((9999:ℚ)/10 < 0))]
  decide

/-- 0.9999 formatted at precision 0 rounds up to "1". -/
theorem formatRaw_9999over10000 : formatRaw 0 ((9999:ℚ)/10000) = "1" := by
  have hfl : ⌊|(9999:ℚ)/10000| * 10 ^ (0:ℕ)⌋ = 0 := by
    rw [abs_of_pos (by norm_num : (0:ℚ) < 9999/10000)]; norm_num
  have hr : roundHalfEven (|(9999:ℚ)/10000| * 10 ^ (0:ℕ)) = 1 := by
    rw [roundHalfEven_of_gt hfl
      (by rw [abs_of_pos (by norm_num : (0:ℚ) < 9999/10000)]; push_cast; norm_num)]
    decide
  unfold formatRaw
  rw [hr, if_neg (by norm_num : ¬ ((9999:ℚ)/10000 < 0))]
  decide

/-- 0 formatted at precision 0 is "0". -/
theorem formatRaw_zero : formatRaw 0 (0:ℚ) = "0" := by
  have hfl : ⌊|(0:ℚ)| * 10 ^ (0:ℕ)⌋ = 0 := by norm_num
  have hr : roundHalfEven (|(0:ℚ)| * 10 ^ (0:ℕ)) = 0 := by
    rw [roundHalfEven_of_lt hfl (by push_cast; norm_num)]
  unfold formatRaw
  rw [hr, if_neg (by norm_num : ¬ ((0:ℚ) < 0))]
  decide

/-- The magnitude of 999.9 at precision 0 with a prefix is 1: the
rounding carry bumps the base magnitude 0. -/
theorem magnitude_9999over10 : magnitude true 0 ((9999:ℚ)/10) = 1 := by
  unfold magnitude
  rw [if_pos (⟨rfl, by norm_num⟩ : true = true ∧ ((9999:ℚ)/10) ≠ 0)]
  have harg : (9999:ℚ)/10 / 10 ^ (3 * mag0 ((9999:ℚ)/10)) = (9999:ℚ)/10 := by
    rw [mag0_9999over10]; norm_num
  rw [harg, formatRaw_9999over10,
    if_pos (by decide : strStartsWith "1000" "1000" = true), mag0_9999over10]
  decide

/-- Claim C3: with a prefix and a nonzero finite value, the magnitude is
the floor of log10 of the absolute value divided by 3 (the power-of-10
sandwich below), bumped by one exactly when formatting the scaled value
at the requested precision prints a leading "1000"; the magnitude is 0
without a prefix or at value 0; an out-of-table magnitude renders the
"?" prefix; positive precision strips trailing zeros and a bare trailing
decimal point from the number; and the fixtures 999.9 at precision 0
with prefix and 0 at precision 0 with prefix render "1k" and "0". -/
theorem C3_format_quantity :
    (∀ q : ℚ, q ≠ 0 → (10:ℚ) ^ (3 * mag0 q) ≤ |q| ∧ |q| < (10:ℚ) ^ (3 * mag0 q + 3)) ∧
      (∀ (p : ℕ) (q : ℚ), magnitude false p q = 0) ∧
      (∀ p : ℕ, magnitude true p 0 = 0) ∧
      (∀ (p : ℕ) (q : ℚ), q ≠ 0 →
        magnitude true p q =
          if strStartsWith (formatRaw p (q / 10 ^ (3 * mag0 q))) "1000" = true then mag0 q + 1
          else mag0 q) ∧
      (∀ m : ℤ, 6 ≤ m.natAbs - 1 → prefStr m = "?") ∧
      (∀ (q : ℚ) (u np us : String) (p : ℕ), 0 < p →
        formatQuantity q u true p np us =
          np ++ stripTrailingZeros (formatRaw p (q / 10 ^ (3 * magnitude true p q))) ++
            us ++ prefStr (magnitude true p q) ++ u) ∧
      formatQuantity (9999/10) "" true 0 "" "" = "1k" ∧
      formatQuantity 0 "" true 0 "" "" = "0" := by
  refine ⟨mag0_bounds, ?_, ?_, ?_, ?_, ?_, ?_, ?_⟩
  · intro p q
    simp [magnitude]
  · intro p
    simp [magnitude]
  · intro p q hq
    unfold magnitude
    rw [if_pos ⟨rfl, hq⟩]
  · intro m hm
    have hm0 : m ≠ 0 := by omega
    unfold prefStr
    rw [if_neg hm0]
    split_ifs <;> exact List.getD_eq_default _ _ (by simp; omega)
  · intro q u np us p hp
    unfold formatQuantity
    rw [if_pos hp]
  · unfold formatQuantity
    rw [magnitude_9999over10]
    rw [if_neg (lt_irrefl 0)]
    have harg2 : (9999:ℚ)/10 / 10 ^ ((3:ℤ) * 1) = 9999/10000 := by norm_num
    rw [harg2, formatRaw_9999over10000]
    decide
  · unfold formatQuantity
    have hm : magnitude true 0 (0:ℚ) = 0 := by simp [magnitude]
    rw [hm, if_neg (lt_irrefl 0)]
    have harg : (0:ℚ) / 10 ^ ((3:ℤ) * 0) = 0 := by norm_num
    rw [harg, formatRaw_zero]
    decide

/-- Witness for C3: the power sandwich of the base magnitude at 2. -/
theorem C3_format_quantity_witness :
    (10:ℚ) ^ (3 * mag0 2) ≤ |(2:ℚ)| ∧ |(2:ℚ)| < (10:ℚ) ^ (3 * mag0 2 + 3) :=
  C3_format_quantity.1 2 (by norm_num)

end Hegemon
